import Mathlib

/-!
Shallow embedding of the `freq_sink_f_proc` block of gr-bokehgui.

The repository ships only the pure-virtual interface header
`include/bokehgui/freq_sink_f_proc.h`; the implementing class is not part
of the source tree.  Every operation below is therefore modelled from the
specification, as noted on each definition.  Sample values, spectra,
trigger levels and window coefficients are rationals; machine floating
point is abstracted away.
-/

/-- Trigger modes of the sink: free running, auto, normal and tag
(mirrors `gr::bokehgui::trigger_mode`). -/
inductive TriggerMode where
  | free : TriggerMode
  | auto : TriggerMode
  | normal : TriggerMode
  | tag : TriggerMode
deriving DecidableEq

/-- Modelled from the spec: the trigger configuration is
mode, level, channel index and tag key (the `set_trigger_mode`
parameters; the implementation file is absent from the tree). -/
structure TriggerState where
  mode : TriggerMode
  level : Rat
  channel : Int
  tagKey : String
deriving DecidableEq

/-- A frame is a 2D array: a list of rows of spectral values. -/
abbrev Frame := List (List Rat)

/-- Modelled from the spec: window coefficients are a deterministic
sequence of exactly `size` entries derived from `(fftSize, windowType)`
alone.  The concrete firdes window shapes live outside this repository,
so a shape-respecting deterministic stand-in is used; every claim about
windows depends only on length and determinism. -/
def windowCoeffs (size : Nat) (wintype : Int) : List Rat :=
  (List.range size).map (fun (i : Nat) => (wintype : Rat) + (i : Rat) + 1)

/-- Modelled from the spec: the full state of one `freq_sink_f_proc`
instance — configuration, window coefficients, per-channel averaging
accumulators, the bounded frame queue and the trigger configuration.
Field names follow the GNU Radio member-naming convention used by the
header documentation (`d_size`, `nconnections`, ...). -/
structure SinkState where
  d_size : Nat
  d_wintype : Int
  d_fc : Rat
  d_bw : Rat
  d_name : String
  d_nconnections : Nat
  d_window : List Rat
  d_fft_avg : Rat
  d_avg : List (List Rat)
  queue : List Frame
  trig : TriggerState
deriving DecidableEq

/-- Zero-valued averaging accumulators: one row of `size` zeros per
channel. -/
def zeroAcc (nch size : Nat) : List (List Rat) :=
  List.replicate nch (List.replicate size 0)

/-- Modelled from the spec: `make` validates `fftSize > 0` and
`channelCount ≥ 0`; on invalid parameters construction fails and no
partial object is created.  On success all transient state starts
empty/zeroed and the trigger is free-running. -/
def make (fftsize wintype : Int) (fc bw : Rat) (nm : String)
    (nconnections : Int) : Option SinkState :=
  if fftsize ≤ 0 ∨ nconnections < 0 then none
  else some
    { d_size := fftsize.toNat
      d_wintype := wintype
      d_fc := fc
      d_bw := bw
      d_name := nm
      d_nconnections := nconnections.toNat
      d_window := windowCoeffs fftsize.toNat wintype
      d_fft_avg := 1
      d_avg := zeroAcc nconnections.toNat fftsize.toNat
      queue := []
      trig := { mode := TriggerMode.free, level := 0, channel := 0, tagKey := "" } }

/-- Modelled from the spec: `get_plot_data` returns the oldest queued
frame together with its row count (`nconnections + 1`) and column count
(`d_size`), and pops that frame; against an empty queue it returns
immediately with a sentinel of empty data and zero row/column counts,
leaving the state unchanged.  Result layout:
(new state, data, nrows, size). -/
def get_plot_data (s : SinkState) : SinkState × Frame × Nat × Nat :=
  match s.queue with
  | [] => (s, ([], 0, 0))
  | f :: rest => ({ s with queue := rest }, (f, s.d_nconnections + 1, s.d_size))

/-- Repeatedly call `get_plot_data`, collecting the returned data blocks
in call order; used to state the FIFO drain property. -/
def drainFrames : SinkState → Nat → List Frame × SinkState
  | s, 0 => ([], s)
  | s, n + 1 =>
    let r := get_plot_data s
    let rest := drainFrames r.1 n
    (r.2.1 :: rest.1, rest.2)

/-- Modelled from the spec: `reset()` clears the frame queue and
restores the averaging accumulators to zero-equivalent; it is a single
indivisible state transition, so it is atomic with respect to the
(sequentialised) processing step. -/
def reset (s : SinkState) : SinkState :=
  { s with queue := [], d_avg := zeroAcc s.d_nconnections s.d_size }

/-- Modelled from the spec: the frame queue is bounded; its concrete
capacity is not fixed by the header, only that it is a positive bound. -/
def queueCapacity : Nat := 10

/-- Modelled from the spec: enqueueing appends at the tail; when the
queue is at capacity the oldest unread frame is evicted first
(drop-oldest backpressure). -/
def enqueueBounded (cap : Nat) (q : List Frame) (f : Frame) : List Frame :=
  if q.length < cap then q ++ [f] else q.tail ++ [f]

/-- The last `n` admitted frames of a queue, in admission order. -/
def keepLast (n : Nat) (l : List Frame) : List Frame :=
  l.drop (l.length - n)

/-- Modelled from the spec: in auto and normal mode the trigger fires
when the configured channel's spectrum exceeds `level` at any bin of
the frame. -/
def frameTriggered (ts : TriggerState) (fr : Frame) : Bool :=
  (fr.getD ts.channel.toNat []).any (fun x => decide (ts.level < x))

/-- Modelled from the spec: the per-batch admission gate.  Free and
auto always admit; normal admits only when the trigger condition holds;
tag admits only when a tag named `tagKey` is attached to the batch. -/
def acceptFrame (ts : TriggerState) (fr : Frame) (tags : List String) : Bool :=
  match ts.mode with
  | TriggerMode.free => true
  | TriggerMode.auto => true
  | TriggerMode.normal => frameTriggered ts fr
  | TriggerMode.tag => tags.contains ts.tagKey

/-- Modelled from the spec: a computed frame is handed to the trigger
gate; if admitted it is enqueued (evicting the oldest frame at
capacity), otherwise the state is unchanged. -/
def processFrame (s : SinkState) (fr : Frame) (tags : List String) : SinkState :=
  if acceptFrame s.trig fr tags then
    { s with queue := enqueueBounded queueCapacity s.queue fr }
  else s

/-- Modelled from the spec: the spectral estimator applies the window
coefficients elementwise to a channel's sample block and converts the
transform output to spectral values; the transform itself is external
to this repository, so the value map is abstracted — only the shape
(one output bin per windowed sample) is specified. -/
def computeSpectrum (window samples : List Rat) : List Rat :=
  List.zipWith (fun w x => w * x) window samples

/-- Modelled from the spec: exponential averaging,
`acc = (1 - α)·acc + α·new`, per bin. -/
def applyAvg (alpha : Rat) (acc spec : List Rat) : List Rat :=
  List.zipWith (fun a x => (1 - alpha) * a + alpha * x) acc spec

/-- Modelled from the spec: one streaming-path batch — per channel a
spectrum is computed with the current window, the averaging
accumulators are updated, and the resulting frame (one row per channel
plus one reserved auxiliary row) is offered to the trigger gate. -/
def processBatch (s : SinkState) (inputs : List (List Rat))
    (tags : List String) : SinkState :=
  let specs := inputs.map (computeSpectrum s.d_window)
  let newAcc := List.zipWith (applyAvg s.d_fft_avg) s.d_avg specs
  let fr : Frame := newAcc ++ [List.replicate s.d_size 0]
  processFrame { s with d_avg := newAcc } fr tags

/-- Modelled from the spec: `buildwindow` regenerates the window
coefficients from the current `(fftSize, windowType)`. -/
def buildwindow (s : SinkState) : SinkState :=
  { s with d_window := windowCoeffs s.d_size s.d_wintype }

/-- Modelled from the spec: `set_fft_window` rejects invalid window
types (the firdes window enum has no negative values), returning
failure with the configuration untouched; on success it stores the new
type and rebuilds the window coefficients. -/
def set_fft_window (s : SinkState) (newwintype : Int) : Bool × SinkState :=
  if newwintype < 0 then (false, s)
  else (true, buildwindow { s with d_wintype := newwintype })

/-- Modelled from the spec: `fftresize` rejects sizes ≤ 0, returning
failure with the configuration (window coefficients included) fully
unchanged; on success it stores the new size, resets the averaging
accumulators and rebuilds the window coefficients. -/
def fftresize (s : SinkState) (newsize : Int) : Bool × SinkState :=
  if newsize ≤ 0 then (false, s)
  else
    (true, buildwindow
      { s with
          d_size := newsize.toNat
          d_avg := zeroAcc s.d_nconnections newsize.toNat })

/-- Split a payload into consecutive segments of `n` samples. -/
def chunks (n : Nat) (l : List Rat) : List (List Rat) :=
  if h : n = 0 ∨ l = [] then []
  else l.take n :: chunks n (l.drop n)
termination_by l.length
decreasing_by
  push_neg at h
  have h2 : 0 < l.length := List.length_pos.mpr h.2
  simp only [List.length_drop]
  omega

/-- Modelled from the spec: the packet path.  A payload whose length is
an exact multiple of `fftSize` is split into `fftSize`-sample segments,
each producing one per-segment spectrum offered to the trigger gate; a
payload of any other length is a malformed packet, dropped without
mutating any state, and processing continues with the next packet. -/
def handle_pdus (s : SinkState) (payload : List Rat)
    (tags : List String) : SinkState :=
  if payload.length % s.d_size = 0 then
    (chunks s.d_size payload).foldl
      (fun st seg => processFrame st [computeSpectrum st.d_window seg] tags) s
  else s

/-- Modelled from the spec: `set_trigger_mode` with mode auto or normal
requires `channel` to be a valid input index; an out-of-range channel
is rejected at configuration time, leaving the previous trigger
configuration active.  Otherwise the new configuration is stored. -/
def set_trigger_mode (s : SinkState) (mode : TriggerMode) (level : Rat)
    (channel : Int) (tagKey : String) : SinkState :=
  if (mode = TriggerMode.auto ∨ mode = TriggerMode.normal) ∧
      (channel < 0 ∨ (s.d_nconnections : Int) ≤ channel) then s
  else { s with trig := { mode := mode, level := level, channel := channel, tagKey := tagKey } }

/-- A well-formed frame for a sink with `nrows` rows of `ncols` bins. -/
def frameWF (nrows ncols : Nat) (fr : Frame) : Prop :=
  fr.length = nrows ∧ ∀ r ∈ fr, r.length = ncols

instance (nrows ncols : Nat) (fr : Frame) : Decidable (frameWF nrows ncols fr) := by
  unfold frameWF; infer_instance

/-- Every queued frame has shape `(nconnections + 1) × d_size`. -/
def queueWF (s : SinkState) : Prop :=
  ∀ fr ∈ s.queue, frameWF (s.d_nconnections + 1) s.d_size fr

instance (s : SinkState) : Decidable (queueWF s) := by
  unfold queueWF; infer_instance

/-- Shape invariants tying the stored window, accumulators and queue to
the configured size and channel count. -/
def SinkWF (s : SinkState) : Prop :=
  s.d_window.length = s.d_size ∧
  s.d_avg.length = s.d_nconnections ∧
  (∀ a ∈ s.d_avg, a.length = s.d_size) ∧
  queueWF s

/-- A small concrete frame used to exercise the theorems. -/
def frA : Frame := [[1, 2], [3, 4]]

/-- A second concrete frame; its channel-0 row exceeds level 5. -/
def frB : Frame := [[5, 6], [7, 8]]

/-- A third concrete frame. -/
def frC : Frame := [[9, 9], [9, 9]]

/-- A free-running trigger configuration. -/
def baseTrig : TriggerState :=
  { mode := TriggerMode.free, level := 0, channel := 0, tagKey := "" }

/-- A normal-mode trigger configuration on channel 0 with level 5. -/
def normalTrig : TriggerState :=
  { mode := TriggerMode.normal, level := 5, channel := 0, tagKey := "" }

/-- A concrete sink (fft size 2, one connection) with a given queue and
trigger configuration, used to exercise the theorems. -/
def sampleSink (q : List Frame) (ts : TriggerState) : SinkState :=
  { d_size := 2
    d_wintype := 0
    d_fc := 0
    d_bw := 0
    d_name := "sig"
    d_nconnections := 1
    d_window := windowCoeffs 2 0
    d_fft_avg := 1
    d_avg := zeroAcc 1 2
    queue := q
    trig := ts }

/-! Helper lemmas. -/

/-- The window coefficient sequence always has exactly `size` entries. -/
theorem windowCoeffs_length (size : Nat) (wintype : Int) :
    (windowCoeffs size wintype).length = size := by
  unfold windowCoeffs
  rw [List.length_map, List.length_range]

/-- Keeping the last `n` elements twice around an append is the same as
doing it once at the end. -/
theorem keepLast_append_keepLast (n : Nat) (a b : List Frame) :
    keepLast n (keepLast n a ++ b) = keepLast n (a ++ b) := by
  unfold keepLast
  rw [List.drop_append_eq_append_drop, List.drop_append_eq_append_drop,
      List.drop_drop]
  simp only [List.length_append, List.length_drop]
  congr 1
  · congr 1
    omega
  · congr 1
    omega

/-- Under the length invariant, a bounded enqueue keeps exactly the last
`cap` elements of the extended queue. -/
theorem enqueueBounded_eq_keepLast (cap : Nat) (q : List Frame) (f : Frame)
    (hc : 0 < cap) (hq : q.length ≤ cap) :
    enqueueBounded cap q f = keepLast cap (q ++ [f]) := by
  unfold enqueueBounded keepLast
  by_cases h : q.length < cap
  · rw [if_pos h]
    have h0 : (q ++ [f]).length - cap = 0 := by
      simp only [List.length_append, List.length_singleton]
      omega
    rw [h0, List.drop_zero]
  · rw [if_neg h]
    have h1 : (q ++ [f]).length - cap = 1 := by
      simp only [List.length_append, List.length_singleton]
      omega
    rw [h1]
    cases q with
    | nil => simp at h; omega
    | cons x xs => simp

/-- Folding bounded enqueues over a list of admitted frames keeps
exactly the last `cap` frames of queue-plus-admissions. -/
theorem foldl_enqueueBounded (cap : Nat) (hc : 0 < cap) (fs : List Frame) :
    ∀ q : List Frame, q.length ≤ cap →
      fs.foldl (enqueueBounded cap) q = keepLast cap (q ++ fs) := by
  induction fs with
  | nil =>
    intro q hq
    simp [keepLast, Nat.sub_eq_zero_of_le hq]
  | cons f fs ih =>
    intro q hq
    rw [List.foldl_cons]
    have hlen : (enqueueBounded cap q f).length ≤ cap := by
      rw [enqueueBounded_eq_keepLast cap q f hc hq]
      simp only [keepLast, List.length_drop, List.length_append,
        List.length_singleton]
      omega
    rw [ih _ hlen, enqueueBounded_eq_keepLast cap q f hc hq,
        keepLast_append_keepLast]
    congr 1
    simp

/-- Draining a sink for exactly the length of its queue returns all
queued frames in order and leaves the queue empty. -/
theorem drainFrames_spec (q : List Frame) :
    ∀ s : SinkState, s.queue = q →
      (drainFrames s q.length).1 = q ∧ (drainFrames s q.length).2.queue = [] := by
  induction q with
  | nil =>
    intro s hs
    exact ⟨rfl, hs⟩
  | cons f rest ih =>
    intro s hs
    have hg : get_plot_data s =
        ({ s with queue := rest }, (f, s.d_nconnections + 1, s.d_size)) := by
      simp [get_plot_data, hs]
    have ihr := ih { s with queue := rest } rfl
    simp only [drainFrames, hg]
    exact ⟨by rw [ihr.1], ihr.2⟩

/-- Any member of a bounded-enqueue result was already queued or is the
newly admitted frame. -/
theorem mem_enqueueBounded {cap : Nat} {q : List Frame} {f g : Frame}
    (hg : g ∈ enqueueBounded cap q f) : g ∈ q ∨ g = f := by
  unfold enqueueBounded at hg
  by_cases hb : q.length < cap
  · rw [if_pos hb, List.mem_append, List.mem_singleton] at hg
    exact hg
  · rw [if_neg hb, List.mem_append, List.mem_singleton] at hg
    rcases hg with hg | hg
    · exact Or.inl (List.mem_of_mem_tail hg)
    · exact Or.inr hg

/-- Members of a `zipWith` come from members of the two zipped lists. -/
theorem exists_of_mem_zipWith {α β γ : Type} (f : α → β → γ) :
    ∀ (l1 : List α) (l2 : List β) (c : γ), c ∈ List.zipWith f l1 l2 →
      ∃ a, a ∈ l1 ∧ ∃ b, b ∈ l2 ∧ c = f a b := by
  intro l1
  induction l1 with
  | nil => intro l2 c hc; simp at hc
  | cons x xs ih =>
    intro l2 c hc
    cases l2 with
    | nil => simp at hc
    | cons y ys =>
      rw [List.zipWith_cons_cons, List.mem_cons] at hc
      rcases hc with hc | hc
      · exact ⟨x, List.mem_cons_self x xs, y, List.mem_cons_self y ys, hc⟩
      · rcases ih ys c hc with ⟨a, ha, b, hb, hab⟩
        exact ⟨a, List.mem_cons_of_mem x ha, b, List.mem_cons_of_mem y hb, hab⟩

/-- An averaged row is as long as the shorter of accumulator and
spectrum. -/
theorem applyAvg_length (alpha : Rat) (acc spec : List Rat) :
    (applyAvg alpha acc spec).length = min acc.length spec.length := by
  unfold applyAvg
  rw [List.length_zipWith]

/-- A computed spectrum is as long as the shorter of window and sample
block. -/
theorem computeSpectrum_length (window samples : List Rat) :
    (computeSpectrum window samples).length = min window.length samples.length := by
  unfold computeSpectrum
  rw [List.length_zipWith]

/-- One streaming batch preserves the queue shape invariant: every
frame it may enqueue has `nconnections + 1` rows of `d_size` bins. -/
theorem processBatch_preserves_queueWF (s : SinkState)
    (inputs : List (List Rat)) (tags : List String)
    (hwin : s.d_window.length = s.d_size)
    (havg1 : s.d_avg.length = s.d_nconnections)
    (havg2 : ∀ a ∈ s.d_avg, a.length = s.d_size)
    (hin1 : inputs.length = s.d_nconnections)
    (hin2 : ∀ ch ∈ inputs, ch.length = s.d_size)
    (hq : queueWF s) :
    queueWF (processBatch s inputs tags) := by
  have hfrWF : frameWF (s.d_nconnections + 1) s.d_size
      (List.zipWith (applyAvg s.d_fft_avg) s.d_avg
        (inputs.map (computeSpectrum s.d_window)) ++
        [List.replicate s.d_size 0]) := by
    constructor
    · rw [List.length_append, List.length_zipWith, List.length_map,
        havg1, hin1, List.length_singleton, min_self]
    · intro r hr
      rw [List.mem_append, List.mem_singleton] at hr
      rcases hr with hr | hr
      · rcases exists_of_mem_zipWith _ _ _ _ hr with ⟨a, ha, b, hb, hab⟩
        rcases List.mem_map.mp hb with ⟨ch, hch, hchb⟩
        rw [hab, applyAvg_length, havg2 a ha, ← hchb,
          computeSpectrum_length, hwin, hin2 ch hch, min_self, min_self]
      · rw [hr, List.length_replicate]
  unfold processBatch processFrame
  by_cases hacc : acceptFrame s.trig
      (List.zipWith (applyAvg s.d_fft_avg) s.d_avg
        (inputs.map (computeSpectrum s.d_window)) ++
        [List.replicate s.d_size 0]) tags
  · simp only [hacc, if_pos]
    intro g hg
    rcases mem_enqueueBounded hg with hgq | hgf
    · exact hq g hgq
    · rw [hgf]
      exact hfrWF
  · simp only [hacc, if_neg]
    intro g hg
    exact hq g hg

/-! Claim theorems. -/

/-- C1: against a non-empty frame queue, `get_plot_data` returns the
contents of the oldest enqueued frame and removes exactly that frame,
and repeated calls (one per queued frame) return all frames in the
order they were admitted and leave the queue empty (FIFO drain). -/
theorem get_plot_data_fifo (s : SinkState) (f : Frame) (rest : List Frame)
    (h : s.queue = f :: rest) :
    (get_plot_data s).2.1 = f ∧
    (get_plot_data s).1.queue = rest ∧
    (drainFrames s s.queue.length).1 = s.queue ∧
    (drainFrames s s.queue.length).2.queue = [] := by
  have hd := drainFrames_spec s.queue s rfl
  refine ⟨?_, ?_, hd.1, hd.2⟩ <;> simp [get_plot_data, h]

theorem get_plot_data_fifo_witness :
    (get_plot_data (sampleSink [frA, frB] baseTrig)).2.1 = frA ∧
    (get_plot_data (sampleSink [frA, frB] baseTrig)).1.queue = [frB] ∧
    (drainFrames (sampleSink [frA, frB] baseTrig)
      (sampleSink [frA, frB] baseTrig).queue.length).1 =
      (sampleSink [frA, frB] baseTrig).queue ∧
    (drainFrames (sampleSink [frA, frB] baseTrig)
      (sampleSink [frA, frB] baseTrig).queue.length).2.queue = [] :=
  get_plot_data_fifo (sampleSink [frA, frB] baseTrig) frA [frB] rfl

/-- C2: under Normal trigger mode a computed frame is enqueued exactly
when the configured channel's spectrum exceeds the trigger level at
some bin of that frame; a frame that never crosses the level leaves the
whole state (queue included) unchanged. -/
theorem normal_mode_admits_iff (s : SinkState) (fr : Frame) (tags : List String)
    (h : s.trig.mode = TriggerMode.normal) :
    (processFrame s fr tags).queue =
      (if frameTriggered s.trig fr then enqueueBounded queueCapacity s.queue fr
       else s.queue) ∧
    (frameTriggered s.trig fr = false → processFrame s fr tags = s) := by
  constructor
  · unfold processFrame acceptFrame
    rw [h]
    by_cases hb : frameTriggered s.trig fr <;> simp [hb]
  · intro hb
    unfold processFrame acceptFrame
    rw [h]
    simp [hb]

theorem normal_mode_admits_iff_witness :
    ((processFrame (sampleSink [] normalTrig) frB []).queue =
      (if frameTriggered (sampleSink [] normalTrig).trig frB then
        enqueueBounded queueCapacity (sampleSink [] normalTrig).queue frB
       else (sampleSink [] normalTrig).queue) ∧
     (frameTriggered (sampleSink [] normalTrig).trig frB = false →
        processFrame (sampleSink [] normalTrig) frB [] = sampleSink [] normalTrig)) :=
  normal_mode_admits_iff (sampleSink [] normalTrig) frB [] rfl

/-- C3: enqueueing a sequence of at least `cap` admitted frames into an
initially empty bounded queue yields a queue of length exactly `cap`
holding precisely the `cap` most recently admitted frames (the oldest
are evicted first). -/
theorem enqueue_beyond_capacity (cap : Nat) (fs : List Frame)
    (hc : 0 < cap) (h : cap ≤ fs.length) :
    (fs.foldl (enqueueBounded cap) []).length = cap ∧
    fs.foldl (enqueueBounded cap) [] = fs.drop (fs.length - cap) := by
  have hfold := foldl_enqueueBounded cap hc fs [] (by simp)
  rw [List.nil_append] at hfold
  constructor
  · rw [hfold]
    simp only [keepLast, List.length_drop]
    omega
  · rw [hfold]
    rfl

theorem enqueue_beyond_capacity_witness :
    (([frA, frB, frC] : List Frame).foldl (enqueueBounded 2) []).length = 2 ∧
    ([frA, frB, frC] : List Frame).foldl (enqueueBounded 2) [] =
      ([frA, frB, frC] : List Frame).drop (([frA, frB, frC] : List Frame).length - 2) :=
  enqueue_beyond_capacity 2 [frA, frB, frC] (by decide) (by decide)

/-- C4: retrieval against an empty queue is not an error: the call
returns immediately with empty data and zero row/column counts, and the
entire sink state is unchanged. -/
theorem get_plot_data_empty (s : SinkState) (h : s.queue = []) :
    get_plot_data s = (s, ([], 0, 0)) := by
  simp [get_plot_data, h]

theorem get_plot_data_empty_witness :
    get_plot_data (sampleSink [] baseTrig) = (sampleSink [] baseTrig, ([], 0, 0)) :=
  get_plot_data_empty (sampleSink [] baseTrig) rfl

/-- C5: an invalid FFT size makes construction fail with no partial
object, and invalid arguments to `fftresize` / `set_fft_window` return
failure while the whole configuration, existing window coefficients
included, stays unchanged. -/
theorem invalid_fft_size_rejected (fftsize wintype : Int) (fc bw : Rat)
    (nm : String) (nconnections : Int) (s : SinkState) (ns nw : Int)
    (h1 : fftsize ≤ 0) (h2 : ns ≤ 0) (h3 : nw < 0) :
    make fftsize wintype fc bw nm nconnections = none ∧
    fftresize s ns = (false, s) ∧
    set_fft_window s nw = (false, s) := by
  refine ⟨?_, ?_, ?_⟩
  · simp [make, h1]
  · simp [fftresize, h2]
  · simp [set_fft_window, h3]

theorem invalid_fft_size_rejected_witness :
    make (-4) 0 0 0 "sig" 1 = none ∧
    fftresize (sampleSink [] baseTrig) 0 = (false, sampleSink [] baseTrig) ∧
    set_fft_window (sampleSink [] baseTrig) (-1) = (false, sampleSink [] baseTrig) :=
  invalid_fft_size_rejected (-4) 0 0 0 "sig" 1 (sampleSink [] baseTrig) 0 (-1)
    (by decide) (by decide) (by decide)

/-- C6: a packet whose payload length is not an exact multiple of the
FFT size is dropped as a recoverable per-event error: the sink state
(frame queue included) is unchanged, so processing continues unaffected
with the next packet. -/
theorem malformed_pdu_dropped (s : SinkState) (payload : List Rat)
    (tags : List String) (h : payload.length % s.d_size ≠ 0) :
    handle_pdus s payload tags = s := by
  simp [handle_pdus, h]

theorem malformed_pdu_dropped_witness :
    handle_pdus (sampleSink [] baseTrig) [1, 2, 3] [] = sampleSink [] baseTrig :=
  malformed_pdu_dropped (sampleSink [] baseTrig) [1, 2, 3] [] (by decide)

/-- C7: under the queue shape invariant, retrieving a frame reports row
count `nconnections + 1` and column count `d_size`, the returned data
block has exactly that shape, and the invariant is preserved by a
streaming batch (well-shaped inputs given), so every retrievable frame
has shape `(channelCount + 1) × fftSize`. -/
theorem frame_shape (s : SinkState) (f : Frame) (rest : List Frame)
    (hwf : queueWF s) (h : s.queue = f :: rest) :
    (get_plot_data s).2.2.1 = s.d_nconnections + 1 ∧
    (get_plot_data s).2.2.2 = s.d_size ∧
    (get_plot_data s).2.1.length = s.d_nconnections + 1 ∧
    (∀ r ∈ (get_plot_data s).2.1, r.length = s.d_size) ∧
    (∀ (inputs : List (List Rat)) (tags : List String),
      s.d_window.length = s.d_size →
      s.d_avg.length = s.d_nconnections →
      (∀ a ∈ s.d_avg, a.length = s.d_size) →
      inputs.length = s.d_nconnections →
      (∀ ch ∈ inputs, ch.length = s.d_size) →
      queueWF (processBatch s inputs tags)) := by
  have hf : frameWF (s.d_nconnections + 1) s.d_size f := by
    refine hwf f ?_
    rw [h]
    exact List.mem_cons_self f rest
  have h1 : (get_plot_data s).2.1 = f := by simp [get_plot_data, h]
  have h2 : (get_plot_data s).2.2.1 = s.d_nconnections + 1 := by
    simp [get_plot_data, h]
  have h3 : (get_plot_data s).2.2.2 = s.d_size := by simp [get_plot_data, h]
  refine ⟨h2, h3, ?_, ?_, ?_⟩
  · rw [h1]
    exact hf.1
  · rw [h1]
    exact hf.2
  · intro inputs tags hwin havg1 havg2 hin1 hin2
    exact processBatch_preserves_queueWF s inputs tags hwin havg1 havg2 hin1 hin2 hwf

theorem frame_shape_witness :
    (get_plot_data (sampleSink [frA] baseTrig)).2.2.1 =
      (sampleSink [frA] baseTrig).d_nconnections + 1 ∧
    (get_plot_data (sampleSink [frA] baseTrig)).2.2.2 =
      (sampleSink [frA] baseTrig).d_size ∧
    (get_plot_data (sampleSink [frA] baseTrig)).2.1.length =
      (sampleSink [frA] baseTrig).d_nconnections + 1 ∧
    (∀ r ∈ (get_plot_data (sampleSink [frA] baseTrig)).2.1,
      r.length = (sampleSink [frA] baseTrig).d_size) ∧
    (∀ (inputs : List (List Rat)) (tags : List String),
      (sampleSink [frA] baseTrig).d_window.length = (sampleSink [frA] baseTrig).d_size →
      (sampleSink [frA] baseTrig).d_avg.length = (sampleSink [frA] baseTrig).d_nconnections →
      (∀ a ∈ (sampleSink [frA] baseTrig).d_avg, a.length = (sampleSink [frA] baseTrig).d_size) →
      inputs.length = (sampleSink [frA] baseTrig).d_nconnections →
      (∀ ch ∈ inputs, ch.length = (sampleSink [frA] baseTrig).d_size) →
      queueWF (processBatch (sampleSink [frA] baseTrig) inputs tags)) :=
  frame_shape (sampleSink [frA] baseTrig) frA [] (by decide) rfl

/-- C8: `reset` — a single indivisible state transition, hence atomic
with respect to the sequentialised processing step — empties the frame
queue, so the next retrieval returns the no-data sentinel with the
state unchanged, and restores the averaging accumulators to the
zero-equivalent accumulators of a sink with no history. -/
theorem reset_clears_state (s : SinkState) :
    (reset s).queue = [] ∧
    get_plot_data (reset s) = (reset s, ([], 0, 0)) ∧
    (reset s).d_avg = zeroAcc s.d_nconnections s.d_size := by
  refine ⟨rfl, ?_, rfl⟩
  rfl

/-- C9: resizing the FFT from size A to size B and back to A restores
window coefficients identical to the original A-sized ones; the
coefficients are a deterministic function of (fftSize, windowType)
alone, of length A. -/
theorem window_roundtrip (s : SinkState) (a b : Int)
    (ha : 0 < a) (hb : 0 < b)
    (hwin : s.d_window = windowCoeffs s.d_size s.d_wintype)
    (hsize : s.d_size = a.toNat) :
    (fftresize (fftresize s b).2 a).2.d_window = s.d_window ∧
    (fftresize (fftresize s b).2 a).2.d_window.length = a.toNat := by
  have hna : ¬ a ≤ 0 := by omega
  have hnb : ¬ b ≤ 0 := by omega
  constructor
  · simp only [fftresize, buildwindow, hna, hnb, if_neg, if_false]
    rw [hwin, hsize]
  · simp only [fftresize, buildwindow, hna, hnb, if_neg, if_false]
    exact windowCoeffs_length _ _

theorem window_roundtrip_witness :
    (fftresize (fftresize (sampleSink [] baseTrig) 4).2 2).2.d_window =
      (sampleSink [] baseTrig).d_window ∧
    (fftresize (fftresize (sampleSink [] baseTrig) 4).2 2).2.d_window.length =
      (2 : Int).toNat :=
  window_roundtrip (sampleSink [] baseTrig) 2 4 (by decide) (by decide) rfl rfl

/-- C10: `set_trigger_mode` with mode Auto or Normal and a channel
index outside the valid input range is rejected at configuration time:
the previously active trigger configuration (mode, level, channel,
tagKey) remains in effect unchanged. -/
theorem set_trigger_mode_invalid_channel (s : SinkState) (mode : TriggerMode)
    (level : Rat) (channel : Int) (tk : String)
    (hm : mode = TriggerMode.auto ∨ mode = TriggerMode.normal)
    (hch : channel < 0 ∨ (s.d_nconnections : Int) ≤ channel) :
    set_trigger_mode s mode level channel tk = s := by
  unfold set_trigger_mode
  rw [if_pos ⟨hm, hch⟩]

theorem set_trigger_mode_invalid_channel_witness :
    set_trigger_mode (sampleSink [] baseTrig) TriggerMode.normal 0 5 "" =
      sampleSink [] baseTrig :=
  set_trigger_mode_invalid_channel (sampleSink [] baseTrig) TriggerMode.normal 0 5 ""
    (Or.inr rfl) (Or.inr (by decide))
